import Mathlib

/-!
Verification of the option payoff / BSM pricing module (`option_payoffs.py`).

The payoff functions at maturity are embedded over `ℚ` (the Python code does
exact equality comparisons against `0`, which `ℚ` models faithfully).
The BSM pricing functions prior to expiration are embedded over `ℝ`, with
numpy-style domain failures (division by zero, log or sqrt outside the
domain) modelled as `Option.none`.
-/

open MeasureTheory

namespace Derivatives

/-- Embedding of numpy `log`: non-positive arguments do not produce a finite
number (numpy yields `-inf`/`nan`), modelled as `none`. -/
noncomputable def npLog (x : ℝ) : Option ℝ :=
  if x ≤ 0 then none else some (Real.log x)

/-- Embedding of numpy `sqrt`: negative arguments yield `nan`, modelled as
`none`. -/
noncomputable def npSqrt (x : ℝ) : Option ℝ :=
  if x < 0 then none else some (Real.sqrt x)

/-- Embedding of numpy float division: a zero denominator does not produce a
finite number (numpy yields `inf`/`-inf`/`nan`), modelled as `none`. -/
noncomputable def npDiv (a b : ℝ) : Option ℝ :=
  if b = 0 then none else some (a / b)

/-- `d1(S, X, r, stdev, T)` from the source:
`(np.log(S / X) + (r + (stdev ** 2) / 2) * T) / (stdev * np.sqrt(T))`. -/
noncomputable def d1 (S X r stdev T : ℝ) : Option ℝ :=
  (npLog (S / X)).bind fun l =>
    (npSqrt T).bind fun sq =>
      npDiv (l + (r + stdev ^ 2 / 2) * T) (stdev * sq)

/-- `d2(S, X, r, stdev, T)` from the source:
`(np.log(S / X) + (r - (stdev ** 2) / 2) * T) / (stdev * np.sqrt(T))`. -/
noncomputable def d2 (S X r stdev T : ℝ) : Option ℝ :=
  (npLog (S / X)).bind fun l =>
    (npSqrt T).bind fun sq =>
      npDiv (l + (r - stdev ^ 2 / 2) * T) (stdev * sq)

/-- Standard normal cumulative distribution function (`scipy.stats.norm.cdf`),
the integral of the Gaussian density with mean 0 and variance 1 up to `x`. -/
noncomputable def normCdf (x : ℝ) : ℝ :=
  ∫ t in Set.Iic x, ProbabilityTheory.gaussianPDFReal 0 1 t

/-- `BSM_Call(S, X, r, T, d1, d2)` from the source:
`(S * norm.cdf(d1)) - (X * np.exp(-r * T) * norm.cdf(d2))`. -/
noncomputable def BSM_Call (S X r T D1 D2 : ℝ) : ℝ :=
  S * normCdf D1 - X * Real.exp (-r * T) * normCdf D2

/-- `BSM_Put(S, X, r, T, d1, d2)` from the source:
`(X * np.exp(-r * T) * norm.cdf(-d2)) - (S * norm.cdf(-d1))`. -/
noncomputable def BSM_Put (S X r T D1 D2 : ℝ) : ℝ :=
  X * Real.exp (-r * T) * normCdf (-D2) - S * normCdf (-D1)

/-- `Long_Stock(S, buy_price, N)`: `((S - buy_price) * N, buy_price)`. -/
def Long_Stock (S : List ℚ) (buy_price N : ℚ) : List ℚ × ℚ :=
  (S.map fun s => (s - buy_price) * N, buy_price)

/-- `Short_Stock(S, buy_price, N)`: `(-(S - buy_price) * N, buy_price)`. -/
def Short_Stock (S : List ℚ) (buy_price N : ℚ) : List ℚ × ℚ :=
  (S.map fun s => (-(s - buy_price)) * N, buy_price)

/-- `Long_ZCB(S, X)`: `[X] * len(S)` — note the source returns ONLY the
payoff list, with no break-even component. -/
def Long_ZCB (S : List ℚ) (X : ℚ) : List ℚ :=
  List.replicate S.length X

/-- `Short_ZCB(S, X)`: `[-X] * len(S)` — note the source returns ONLY the
payoff list, with no break-even component. -/
def Short_ZCB (S : List ℚ) (X : ℚ) : List ℚ :=
  List.replicate S.length (-X)

/-- `Long_Call(S, X, N, option_premium)`:
`(list(map(lambda s: (max(0, s-X) - option_premium) * N, S)), X+option_premium)`. -/
def Long_Call (S : List ℚ) (X N option_premium : ℚ) : List ℚ × ℚ :=
  (S.map fun s => (max 0 (s - X) - option_premium) * N, X + option_premium)

/-- `Short_Call(S, X, N, option_premium)`:
`(list(map(lambda s: -(max(0, s-X) - option_premium) * N, S)), X+option_premium)`. -/
def Short_Call (S : List ℚ) (X N option_premium : ℚ) : List ℚ × ℚ :=
  (S.map fun s => (-(max 0 (s - X) - option_premium)) * N, X + option_premium)

/-- `Long_Put(S, X, N, option_premium)`:
`(list(map(lambda s: (max(0, X-s) - option_premium) * N, S)), X-option_premium)`. -/
def Long_Put (S : List ℚ) (X N option_premium : ℚ) : List ℚ × ℚ :=
  (S.map fun s => (max 0 (X - s) - option_premium) * N, X - option_premium)

/-- `Short_Put(S, X, N, option_premium)`:
`(list(map(lambda s: -(max(0, X-s) - option_premium) * N, S)), X-option_premium)`. -/
def Short_Put (S : List ℚ) (X N option_premium : ℚ) : List ℚ × ℚ :=
  (S.map fun s => (-(max 0 (X - s) - option_premium)) * N, X - option_premium)

/-- Boolean test that the first list is an initial segment of the second. -/
def isPrefOf : List Char → List Char → Bool
  | [], _ => true
  | _ :: _, [] => false
  | a :: as, b :: bs => (a == b) && isPrefOf as bs

/-- Boolean substring containment over character lists. -/
def subOf (needle : List Char) : List Char → Bool
  | [] => isPrefOf needle []
  | h :: t => isPrefOf needle (h :: t) || subOf needle t

/-- Python `needle in hay` on strings (substring containment), as used by
`'Call' in position` / `'Put' in position` in `graph_payoffs`. -/
def strContains (hay needle : String) : Bool :=
  subOf needle.toList hay.toList

/-- The index labels (spots) of the payoff-table entries whose payoff value is
exactly zero: `payoff_df[position][payoff_df[position] == 0].index`, where
`S` is the index of the payoff table and `vals` the aligned payoff column. -/
def zeroSpots (S vals : List ℚ) : List ℚ :=
  ((S.zip vals).filter fun p => p.2 == 0).map Prod.fst

/-- Break-even scan of `graph_payoffs` for one selected position, given the
position's name, the payoff-table index `S` (the spot grid) and the payoff
column `vals`. Mirrors the source branch for branch: more than one zero and
`'Call' in position` reports the last zero-valued spot; otherwise more than
one zero and `'Put' in position` reports the first; more than one zero with
neither substring reports nothing; exactly one zero reports that spot. -/
def positionBEP (position : String) (S vals : List ℚ) : Option ℚ :=
  let zs := zeroSpots S vals
  if 1 < zs.length then
    if strContains position "Call" then zs.getLast?
    else if strContains position "Put" then zs.head?
    else none
  else if 0 < zs.length then zs.head?
  else none

/-- `shiftPadAux (w :: t)` is `(w :: t).shift(-1)` with the trailing hole
forward-filled: position `i` holds the value at position `i+1`, and the last
position repeats the last value. -/
def shiftPadAux : List ℚ → List (Option ℚ)
  | [] => []
  | [v] => [some v]
  | _ :: w :: t => some w :: shiftPadAux (w :: t)

/-- `vals.shift(-1).replace(np.nan)` from the source: shift every value one
position earlier; the vacated last position is forward-filled (pandas `pad`)
from its predecessor when one exists, otherwise stays missing. -/
def shiftedPad (vals : List ℚ) : List (Option ℚ) :=
  match vals with
  | [] => []
  | [_] => [none]
  | _ :: w :: t => some w :: shiftPadAux (w :: t)

/-- Elementwise comparison `vals == vals.shift(-1).replace(np.nan)`; a
comparison against a missing value is `false`, as in pandas. -/
def laggedEq (vals : List ℚ) : List Bool :=
  List.zipWith (fun v o => o == some v) vals (shiftedPad vals)

/-- `first_valid_index` of a boolean series masked with `.where(· == True)`:
the first index at which the series holds `true`. -/
def firstTrueIdx : List Bool → Option Nat
  | [] => none
  | b :: t => if b then some 0 else (firstTrueIdx t).map (· + 1)

/-- Break-even scan of `graph_payoffs` for the combined Synthetic Position
column `vals` over the payoff-table index `S`: exactly two zeros reports both
zero-valued spots; more than two zeros reports the spot at the first index of
the lagged self-comparison that holds; exactly one zero reports that spot. -/
def syntheticBEP (S vals : List ℚ) : List ℚ :=
  let zs := zeroSpots S vals
  if zs.length = 2 then zs
  else if 1 < zs.length then
    match firstTrueIdx (laggedEq vals) with
    | some i => [S.getD i 0]
    | none => []
  else if 0 < zs.length then [zs.getD 0 0]
  else []

/-- C2: the break-even price returned by `Long_Call` is exactly `X + premium`,
and the one returned by `Long_Put` is exactly `X - premium`, for every spot
grid, strike, quantity and premium. -/
theorem call_put_break_even (S : List ℚ) (X N premium : ℚ) :
    (Long_Call S X N premium).2 = X + premium ∧
    (Long_Put S X N premium).2 = X - premium :=
  ⟨rfl, rfl⟩

/-- C6: on `S = [80,90,100,110,120]`, `X = 100`, `N = 1`, `premium = 5`,
`Long_Call` returns the payoff sequence `[-5,-5,-5,5,15]` and break-even
price `105`. -/
theorem long_call_example :
    Long_Call [80, 90, 100, 110, 120] 100 1 5 = ([-5, -5, -5, 5, 15], 105) := by
  norm_num [Long_Call]

lemma zipWith_add_map (f g : ℚ → ℚ) (S : List ℚ) (h : ∀ s, f s + g s = 0) :
    List.zipWith (· + ·) (S.map f) (S.map g) = List.replicate S.length 0 := by
  induction S with
  | nil => rfl
  | cons a t ih => simp [List.replicate_succ, ih, h a]

lemma zipWith_add_replicate_neg (n : Nat) (X : ℚ) :
    List.zipWith (· + ·) (List.replicate n X) (List.replicate n (-X)) =
      List.replicate n 0 := by
  induction n with
  | zero => rfl
  | succ m ih => simp [List.replicate_succ, ih]

/-- C7: long/short symmetry: for every spot grid and parameters, the payoff
sequence of the long version of each instrument (Stock, Call, Put, ZCB) added
elementwise to the payoff sequence of the corresponding short version is zero
at every index. -/
theorem long_short_symmetry (S : List ℚ) (b N X p : ℚ) :
    List.zipWith (· + ·) (Long_Stock S b N).1 (Short_Stock S b N).1 =
      List.replicate S.length 0 ∧
    List.zipWith (· + ·) (Long_Call S X N p).1 (Short_Call S X N p).1 =
      List.replicate S.length 0 ∧
    List.zipWith (· + ·) (Long_Put S X N p).1 (Short_Put S X N p).1 =
      List.replicate S.length 0 ∧
    List.zipWith (· + ·) (Long_ZCB S X) (Short_ZCB S X) =
      List.replicate S.length 0 :=
  ⟨zipWith_add_map _ _ _ fun s => by ring,
   zipWith_add_map _ _ _ fun s => by ring,
   zipWith_add_map _ _ _ fun s => by ring,
   zipWith_add_replicate_neg _ _⟩

lemma getD_map_of_lt (f : ℚ → ℚ) (S : List ℚ) (i : Nat) (h : i < S.length) :
    (S.map f).getD i 0 = f (S.getD i 0) := by
  induction S generalizing i with
  | nil => simp at h
  | cons a t ih =>
    cases i with
    | zero => rfl
    | succ j => simpa using ih j (by simpa using h)

lemma getD_replicate_of_lt (n : Nat) (X : ℚ) (i : Nat) (h : i < n) :
    (List.replicate n X).getD i 0 = X := by
  induction n generalizing i with
  | zero => omega
  | succ m ih =>
    cases i with
    | zero => rfl
    | succ j => simpa [List.replicate_succ] using ih j (by omega)

/-- C9: every payoff function is pure and elementwise over the spot grid: each
returned payoff sequence has the same length as `S` and its entry at every
index `i < S.length` is computed from the spot at index `i` alone (constant
`±X` for the bonds), so the sequences are aligned index-for-index with `S`;
the embedding is functional, so inputs are never mutated. -/
theorem payoff_elementwise (S : List ℚ) (b N X p : ℚ) (i : Nat) (hi : i < S.length) :
    (Long_Stock S b N).1.length = S.length ∧
    (Short_Stock S b N).1.length = S.length ∧
    (Long_ZCB S X).length = S.length ∧
    (Short_ZCB S X).length = S.length ∧
    (Long_Call S X N p).1.length = S.length ∧
    (Short_Call S X N p).1.length = S.length ∧
    (Long_Put S X N p).1.length = S.length ∧
    (Short_Put S X N p).1.length = S.length ∧
    (Long_Stock S b N).1.getD i 0 = (S.getD i 0 - b) * N ∧
    (Short_Stock S b N).1.getD i 0 = (-(S.getD i 0 - b)) * N ∧
    (Long_ZCB S X).getD i 0 = X ∧
    (Short_ZCB S X).getD i 0 = -X ∧
    (Long_Call S X N p).1.getD i 0 = (max 0 (S.getD i 0 - X) - p) * N ∧
    (Short_Call S X N p).1.getD i 0 = (-(max 0 (S.getD i 0 - X) - p)) * N ∧
    (Long_Put S X N p).1.getD i 0 = (max 0 (X - S.getD i 0) - p) * N ∧
    (Short_Put S X N p).1.getD i 0 = (-(max 0 (X - S.getD i 0) - p)) * N :=
  ⟨by simp [Long_Stock], by simp [Short_Stock], by simp [Long_ZCB], by simp [Short_ZCB],
   by simp [Long_Call], by simp [Short_Call], by simp [Long_Put], by simp [Short_Put],
   getD_map_of_lt _ _ _ hi, getD_map_of_lt _ _ _ hi, getD_replicate_of_lt _ _ _ hi,
   getD_replicate_of_lt _ _ _ hi, getD_map_of_lt _ _ _ hi, getD_map_of_lt _ _ _ hi,
   getD_map_of_lt _ _ _ hi, getD_map_of_lt _ _ _ hi⟩

/-- Witness for `payoff_elementwise` at `S = [80, 90, 100]`, `b = 90`,
`N = 2`, `X = 100`, `p = 5`, `i = 1`. -/
theorem payoff_elementwise_witness :
    1 < ([(80 : ℚ), 90, 100]).length ∧
    (Long_Call [(80 : ℚ), 90, 100] 100 2 5).1.getD 1 0 =
      (max 0 (([(80 : ℚ), 90, 100]).getD 1 0 - 100) - 5) * 2 :=
  ⟨by decide,
   (payoff_elementwise [80, 90, 100] 90 2 100 5 1 (by decide)).2.2.2.2.2.2.2.2.2.2.2.2.1⟩

/-- C5 counterexample: the claim that `Long_ZCB` returns a `(payoff_sequence, break_even)` pair
is false: on `S = [80, 90, 100]`, `X = 100`, the value returned by the source
is the bare three-element constant payoff list itself, not a pair (its length
is 3, so Python tuple unpacking into two components would fail). -/
theorem zcb_pair_counterexample :
    Long_ZCB [(80 : ℚ), 90, 100] 100 = [100, 100, 100] ∧
    (Long_ZCB [(80 : ℚ), 90, 100] 100).length ≠ 2 := by
  constructor
  · decide
  · decide

/-- C5, amended: `Long_ZCB` and `Short_ZCB` return only the payoff sequence —
no break-even component — and that sequence has the length of the spot grid
and is constantly `+X` respectively `-X` at every index. -/
theorem zcb_payoff_const (S : List ℚ) (X : ℚ) (i : Nat) (hi : i < S.length) :
    (Long_ZCB S X).length = S.length ∧
    (Short_ZCB S X).length = S.length ∧
    (Long_ZCB S X).getD i 0 = X ∧
    (Short_ZCB S X).getD i 0 = -X :=
  ⟨by simp [Long_ZCB], by simp [Short_ZCB],
   getD_replicate_of_lt _ _ _ hi, getD_replicate_of_lt _ _ _ hi⟩

/-- Witness for `zcb_payoff_const` at `S = [80, 90, 100]`, `X = 7`, `i = 2`. -/
theorem zcb_payoff_const_witness :
    2 < ([(80 : ℚ), 90, 100]).length ∧
    (Long_ZCB [(80 : ℚ), 90, 100] 7).getD 2 0 = 7 ∧
    (Short_ZCB [(80 : ℚ), 90, 100] 7).getD 2 0 = -7 :=
  ⟨by decide,
   (zcb_payoff_const [80, 90, 100] 7 2 (by decide)).2.2.1,
   (zcb_payoff_const [80, 90, 100] 7 2 (by decide)).2.2.2⟩

/-- C10: in the break-even scan of `graph_payoffs`, a position whose payoff column
has more than one zero entry and whose name contains neither `"Call"` nor
`"Put"` gets no break-even reported at all. -/
theorem scan_silent_without_name_match (position : String) (S vals : List ℚ)
    (h1 : 1 < (zeroSpots S vals).length)
    (hc : strContains position "Call" = false)
    (hp : strContains position "Put" = false) :
    positionBEP position S vals = none := by
  simp [positionBEP, h1, hc, hp]

/-- Witness for `scan_silent_without_name_match`: the position
`"Long Stock"` over spots `[1, 2]` with payoffs `[0, 0]`. -/
theorem scan_silent_without_name_match_witness :
    1 < (zeroSpots [(1 : ℚ), 2] [0, 0]).length ∧
    strContains "Long Stock" "Call" = false ∧
    strContains "Long Stock" "Put" = false ∧
    positionBEP "Long Stock" [(1 : ℚ), 2] [0, 0] = none :=
  ⟨by decide, by decide, by decide,
   scan_silent_without_name_match "Long Stock" [1, 2] [0, 0]
     (by decide) (by decide) (by decide)⟩

/-- C3 counterexample: the claim's Put clause for the per-position scan is false as stated: on a
position named `"CallPut"` (containing both substrings) over spots `[1, 2]`
with payoffs `[0, 0]`, there are two zero entries and the name contains
`"Put"`, yet the scan reports the LAST zero-valued spot, not the first,
because the source tests `'Call' in position` before `'Put' in position`. -/
theorem position_scan_put_counterexample :
    1 < (zeroSpots [(1 : ℚ), 2] [0, 0]).length ∧
    strContains "CallPut" "Put" = true ∧
    positionBEP "CallPut" [(1 : ℚ), 2] [0, 0] ≠ (zeroSpots [(1 : ℚ), 2] [0, 0]).head? :=
  ⟨by decide, by decide, by decide⟩

/-- C3, amended: in the per-position break-even scan, exactly one zero entry
reports that spot; more than one zero entry with `"Call"` in the name reports
the last zero-valued spot; more than one zero entry with `"Put"` in the name
and `"Call"` NOT in the name reports the first zero-valued spot. -/
theorem position_scan_rules (position : String) (S vals : List ℚ) :
    ((zeroSpots S vals).length = 1 →
      positionBEP position S vals = (zeroSpots S vals).head?) ∧
    (1 < (zeroSpots S vals).length → strContains position "Call" = true →
      positionBEP position S vals = (zeroSpots S vals).getLast?) ∧
    (1 < (zeroSpots S vals).length → strContains position "Put" = true →
      strContains position "Call" = false →
      positionBEP position S vals = (zeroSpots S vals).head?) := by
  refine ⟨fun h1 => ?_, fun h1 hc => ?_, fun h1 hp hc => ?_⟩
  · simp [positionBEP, h1]
  · simp [positionBEP, h1, hc]
  · simp [positionBEP, h1, hp, hc]

/-- Witness for `position_scan_rules`: one zero for `"Long Call"` over
`[50, 150]` with payoffs `[0, 10]`; two zeros for `"Long Call"` with payoffs
`[0, 0]` (last spot reported); two zeros for `"Long Put"` (first spot). -/
theorem position_scan_rules_witness :
    positionBEP "Long Call" [(50 : ℚ), 150] [0, 10] = some 50 ∧
    positionBEP "Long Call" [(50 : ℚ), 150] [0, 0] = some 150 ∧
    positionBEP "Long Put" [(50 : ℚ), 150] [0, 0] = some 50 :=
  ⟨((position_scan_rules "Long Call" [50, 150] [0, 10]).1 (by decide)).trans (by decide),
   ((position_scan_rules "Long Call" [50, 150] [0, 0]).2.1 (by decide)
      (by decide)).trans (by decide),
   ((position_scan_rules "Long Put" [50, 150] [0, 0]).2.2 (by decide) (by decide)
      (by decide)).trans (by decide)⟩

lemma shiftPadAux_getD : ∀ (l : List ℚ) (j : Nat), j + 1 < l.length →
    (shiftPadAux l).getD j none = some (l.getD (j + 1) 0)
  | [], j, h => by simp at h
  | [_], j, h => by simp at h
  | _ :: w :: t, 0, _ => rfl
  | a :: w :: t, j + 1, h => by
    have ih := shiftPadAux_getD (w :: t) j (by simpa using Nat.lt_of_succ_lt_succ h)
    simpa [shiftPadAux] using ih

lemma shiftedPad_getD (l : List ℚ) (j : Nat) (h : j + 1 < l.length) :
    (shiftedPad l).getD j none = some (l.getD (j + 1) 0) := by
  match l with
  | [] => simp at h
  | [_] => simp at h
  | a :: w :: t => exact shiftPadAux_getD (a :: w :: t) j h

lemma shiftPadAux_length : ∀ l : List ℚ, (shiftPadAux l).length = l.length
  | [] => rfl
  | [_] => rfl
  | _ :: w :: t => by simp [shiftPadAux, shiftPadAux_length (w :: t)]

lemma shiftedPad_length (l : List ℚ) : (shiftedPad l).length = l.length := by
  match l with
  | [] => rfl
  | [_] => rfl
  | a :: w :: t => simpa [shiftedPad] using shiftPadAux_length (w :: t)

lemma getD_zipWith (f : ℚ → Option ℚ → Bool) :
    ∀ (l1 : List ℚ) (l2 : List (Option ℚ)) (j : Nat), j < l1.length → j < l2.length →
      (List.zipWith f l1 l2).getD j false = f (l1.getD j 0) (l2.getD j none)
  | [], _, j, h1, _ => by simp at h1
  | _ :: _, [], j, _, h2 => by simp at h2
  | a :: t1, b :: t2, 0, _, _ => rfl
  | a :: t1, b :: t2, j + 1, h1, h2 => by
    simpa using getD_zipWith f t1 t2 j (Nat.lt_of_succ_lt_succ h1) (Nat.lt_of_succ_lt_succ h2)

lemma laggedEq_getD (vals : List ℚ) (j : Nat) (h : j + 1 < vals.length) :
    (laggedEq vals).getD j false = (vals.getD (j + 1) 0 == vals.getD j 0) := by
  rw [laggedEq,
    getD_zipWith _ _ _ _ (by omega) (by rw [shiftedPad_length]; omega),
    shiftedPad_getD _ _ h]
  rfl

lemma firstTrueIdx_eq_some : ∀ (l : List Bool) (i : Nat), l.getD i false = true →
    (∀ j, j < i → l.getD j false = false) → firstTrueIdx l = some i
  | [], i, h, _ => by simp at h
  | b :: t, 0, h, _ => by
    have hb : b = true := h
    simp [firstTrueIdx, hb]
  | b :: t, i + 1, h, hj => by
    have hb : b = false := hj 0 (Nat.succ_pos i)
    have ih := firstTrueIdx_eq_some t i (by simpa using h)
      (fun j hjlt => by simpa using hj (j + 1) (Nat.succ_lt_succ hjlt))
    simp [firstTrueIdx, hb, ih]

/-- C4: break-even scan of `graph_payoffs` for the combined Synthetic Position
column: exactly two zero entries report both zero-valued spots; more than two
zero entries report the spot at the first index whose payoff value equals the
payoff value at the next index; exactly one zero entry reports that spot. -/
theorem synthetic_scan_rules (S vals : List ℚ) :
    ((zeroSpots S vals).length = 2 → syntheticBEP S vals = zeroSpots S vals) ∧
    (2 < (zeroSpots S vals).length →
      ∀ i, i + 1 < vals.length → vals.getD i 0 = vals.getD (i + 1) 0 →
        (∀ j, j < i → vals.getD j 0 ≠ vals.getD (j + 1) 0) →
        syntheticBEP S vals = [S.getD i 0]) ∧
    ((zeroSpots S vals).length = 1 → syntheticBEP S vals = [(zeroSpots S vals).getD 0 0]) := by
  refine ⟨fun h2 => ?_, fun hgt i hi heq hne => ?_, fun h1 => ?_⟩
  · simp [syntheticBEP, h2]
  · have hfirst : firstTrueIdx (laggedEq vals) = some i := by
      refine firstTrueIdx_eq_some _ _ ?_ ?_
      · rw [laggedEq_getD vals i hi]
        exact beq_iff_eq.mpr heq.symm
      · intro j hj
        rw [laggedEq_getD vals j (by omega)]
        exact beq_eq_false_iff_ne.mpr fun hcontra => hne j hj hcontra.symm
    have hne2 : (zeroSpots S vals).length ≠ 2 := by omega
    have hgt1 : 1 < (zeroSpots S vals).length := by omega
    simp [syntheticBEP, hne2, hgt1, hfirst]
  · simp [syntheticBEP, h1]

/-- Witness for `synthetic_scan_rules`: two zeros over `[1,2,3]` with
payoffs `[0,5,0]`; more than two zeros over `[1,2,3,4,5]` with payoffs
`[0,3,0,0,5]` (first adjacent equal pair is at index 2, spot 3); one zero
over `[1,2,3]` with payoffs `[0,5,6]`. -/
theorem synthetic_scan_rules_witness :
    syntheticBEP [(1 : ℚ), 2, 3] [0, 5, 0] = zeroSpots [(1 : ℚ), 2, 3] [0, 5, 0] ∧
    syntheticBEP [(1 : ℚ), 2, 3, 4, 5] [0, 3, 0, 0, 5] = [3] ∧
    syntheticBEP [(1 : ℚ), 2, 3] [0, 5, 6] = [(zeroSpots [(1 : ℚ), 2, 3] [0, 5, 6]).getD 0 0] :=
  ⟨(synthetic_scan_rules [1, 2, 3] [0, 5, 0]).1 (by decide),
   ((synthetic_scan_rules [1, 2, 3, 4, 5] [0, 3, 0, 0, 5]).2.1 (by decide) 2 (by decide)
      (by decide) (by decide)).trans (by decide),
   (synthetic_scan_rules [1, 2, 3] [0, 5, 6]).2.2 (by decide)⟩

lemma gaussianPDFReal_even (t : ℝ) :
    ProbabilityTheory.gaussianPDFReal 0 1 (-t) = ProbabilityTheory.gaussianPDFReal 0 1 t := by
  simp [ProbabilityTheory.gaussianPDFReal, neg_sq]

lemma normCdf_add_neg (x : ℝ) : normCdf x + normCdf (-x) = 1 := by
  have hint : Integrable (ProbabilityTheory.gaussianPDFReal 0 1) :=
    ProbabilityTheory.integrable_gaussianPDFReal 0 1
  have h2 : normCdf (-x) = ∫ t in Set.Ioi x, ProbabilityTheory.gaussianPDFReal 0 1 t := by
    rw [normCdf,
      show (∫ t in Set.Iic (-x), ProbabilityTheory.gaussianPDFReal 0 1 t)
          = ∫ t in Set.Iic (-x), ProbabilityTheory.gaussianPDFReal 0 1 (-t) by
        simp_rw [gaussianPDFReal_even],
      integral_comp_neg_Iic, neg_neg]
  rw [normCdf, h2, intervalIntegral.integral_Iic_add_Ioi hint.integrableOn hint.integrableOn,
    ProbabilityTheory.integral_gaussianPDFReal_eq_one 0 one_ne_zero]

/-- C1: put-call parity: for positive spot, strike, maturity and volatility, with
`d1` and `d2` computed from those inputs, the difference between the BSM call
and put prices is `S - X * exp(-r * T)`. -/
theorem put_call_parity (S X r stdev T D1 D2 : ℝ) (hS : 0 < S) (hX : 0 < X)
    (hT : 0 < T) (hstdev : 0 < stdev)
    (hd1 : d1 S X r stdev T = some D1) (hd2 : d2 S X r stdev T = some D2) :
    BSM_Call S X r T D1 D2 - BSM_Put S X r T D1 D2 = S - X * Real.exp (-r * T) := by
  have h1 := normCdf_add_neg D1
  have h2 := normCdf_add_neg D2
  rw [BSM_Call, BSM_Put]
  linear_combination S * h1 - X * Real.exp (-r * T) * h2

/-- Witness for `put_call_parity` at `S = X = stdev = T = 1`, `r = 0`, where
`d1` evaluates to `some (1/2)` and `d2` to `some (-(1/2))`. -/
theorem put_call_parity_witness :
    (0 : ℝ) < 1 ∧ d1 1 1 0 1 1 = some (1 / 2) ∧ d2 1 1 0 1 1 = some (-(1 / 2)) ∧
    BSM_Call 1 1 0 1 (1 / 2) (-(1 / 2)) - BSM_Put 1 1 0 1 (1 / 2) (-(1 / 2)) =
      1 - 1 * Real.exp (-0 * 1) := by
  have hd1 : d1 1 1 0 1 1 = some (1 / 2) := by
    rw [d1]
    norm_num [npLog, npSqrt, npDiv, Real.log_one, Real.sqrt_one]
  have hd2 : d2 1 1 0 1 1 = some (-(1 / 2)) := by
    rw [d2]
    norm_num [npLog, npSqrt, npDiv, Real.log_one, Real.sqrt_one]
  exact ⟨one_pos, hd1, hd2,
    put_call_parity 1 1 0 1 1 (1 / 2) (-(1 / 2)) one_pos one_pos one_pos one_pos hd1 hd2⟩

/-- C8: whenever `stdev = 0` or `T = 0`, the intermediate terms `d1` and `d2` do
not produce a finite number for any positive spot and strike: the division by
`stdev * sqrt(T)` is a division by zero (and `sqrt` of a negative maturity is
already out of domain), modelled as `none`. -/
theorem d1_d2_degenerate (S X r stdev T : ℝ) (hS : 0 < S) (hX : 0 < X)
    (h : stdev = 0 ∨ T = 0) :
    d1 S X r stdev T = none ∧ d2 S X r stdev T = none := by
  have hlog : npLog (S / X) = some (Real.log (S / X)) := by
    rw [npLog, if_neg (not_le.mpr (div_pos hS hX))]
  have hdiv0 : ∀ a : ℝ, npDiv a 0 = none := fun a => by rw [npDiv, if_pos rfl]
  rcases h with h | h
  · subst h
    rcases lt_or_le T 0 with hT | hT
    · have hsq : npSqrt T = none := by rw [npSqrt, if_pos hT]
      simp [d1, d2, hlog, hsq]
    · have hsq : npSqrt T = some (Real.sqrt T) := by rw [npSqrt, if_neg (not_lt.mpr hT)]
      simp [d1, d2, hlog, hsq, hdiv0]
  · subst h
    have hsq : npSqrt 0 = some 0 := by
      rw [npSqrt, if_neg (lt_irrefl (0 : ℝ)), Real.sqrt_zero]
    simp [d1, d2, hlog, hsq, hdiv0]

/-- Witness for `d1_d2_degenerate` at `S = X = 1`, `r = 0`, `stdev = 0`,
`T = 1`. -/
theorem d1_d2_degenerate_witness :
    (0 : ℝ) < 1 ∧ ((0 : ℝ) = 0 ∨ (1 : ℝ) = 0) ∧
    d1 1 1 0 0 1 = none ∧ d2 1 1 0 0 1 = none :=
  ⟨one_pos, Or.inl rfl,
   (d1_d2_degenerate 1 1 0 0 1 one_pos one_pos (Or.inl rfl)).1,
   (d1_d2_degenerate 1 1 0 0 1 one_pos one_pos (Or.inl rfl)).2⟩

end Derivatives
